import Mathlib

/-!
Shallow embedding of `src/main.ts` of obsidian-python-paste-formatter.

The editor buffer is modelled as a list of lines (`List String`); the
document text is the lines joined by newline characters, as in the host
editor.  Positions are (line, ch) pairs.  All definitions below follow the
TypeScript source function by function.
-/

namespace PPF

/-- A (line, column) coordinate, mirroring `EditorPosition`. -/
structure Pos where
  line : Nat
  ch : Nat
deriving DecidableEq, Repr

/-- The editor buffer: line-addressable list of lines (no line contains a newline). -/
abbrev Buffer := List String

/-- `editor.getLine(i)`; out-of-range reads yield the empty string. -/
def getLine (buf : Buffer) (i : Nat) : String := buf.getD i ""

/-- The backtick character (U+0060). -/
def btick : Char := Char.ofNat 96

/-- `line.startsWith('\x60\x60\x60')` on the raw (untrimmed) line. -/
def startsWithFence (s : String) : Bool :=
  [btick, btick, btick].isPrefixOf s.data

/-- Characters treated as whitespace by JS `trim()` and the regex class
`\s` (ASCII fragment; the buffers in this development are ASCII). -/
def isJsSpace (c : Char) : Bool :=
  c = ' ' || c = '\t' || c = '\n' || c = '\r' || c = Char.ofNat 11 || c = Char.ofNat 12

/-- JS `String.prototype.trim` (ASCII whitespace fragment). -/
def jsTrim (s : String) : String :=
  String.mk (((s.data.dropWhile isJsSpace).reverse.dropWhile isJsSpace).reverse)

/-- ASCII `toLowerCase`, as applied by `lang.toLowerCase()`. -/
def jsToLower (s : String) : String :=
  String.mk (s.data.map (fun c => if 65 ≤ c.toNat ∧ c.toNat ≤ 90 then Char.ofNat (c.toNat + 32) else c))

/-- `isPythonLang` from the source: `null`/empty tags are not Python; otherwise
the lowercased tag must be one of python/py/python3/py3. -/
def isPythonLang : Option String → Bool
  | none => false
  | some lang =>
    if lang = "" then false
    else
      let l := jsToLower lang
      l = "python" || l = "py" || l = "python3" || l = "py3"

/-- `extractFenceLang`: trim the line, match `^\x60{3,}\s*([^\s\x60{]+)?`; the
capture (maximal run of non-space, non-backtick, non-brace characters after the
backticks and optional whitespace) is the tag, absent when empty. -/
def extractFenceLang (fenceLine : String) : Option String :=
  let t := (jsTrim fenceLine).data
  if [btick, btick, btick].isPrefixOf t then
    let afterTicks := t.dropWhile (· = btick)
    let afterWs := afterTicks.dropWhile isJsSpace
    let tag := afterWs.takeWhile (fun c => ¬ (isJsSpace c || c = btick || c = Char.ofNat 123))
    if tag = [] then none else some (String.mk tag)
  else none

/-- `FenceInfo` from the source; `startLine`/`endLine` are `-1` in the
absence-marker, hence integers. -/
structure FenceInfo where
  inside : Bool
  lang : Option String
  startLine : Int
  endLine : Int
deriving DecidableEq, Repr

/-- The absence-marker `{ inside: false, lang: null, startLine: -1, endLine: -1 }`. -/
def noFence : FenceInfo := ⟨false, none, -1, -1⟩

/-- The backward loop of `findFenceInfo`: `for (i = pos.line; i >= 0; i--)`,
returning the first line index whose raw text starts with three backticks. -/
def scanBack (buf : Buffer) : Nat → Option Nat
  | 0 => if startsWithFence (getLine buf 0) then some 0 else none
  | (i+1) => if startsWithFence (getLine buf (i+1)) then some (i+1) else scanBack buf i

/-- The forward loop of `findFenceInfo`: `for (j = start; j < total; j++)`,
with explicit fuel `total - start`. -/
def scanFwdAux (buf : Buffer) : Nat → Nat → Option Nat
  | 0, _ => none
  | (fuel+1), j => if startsWithFence (getLine buf j) then some j else scanFwdAux buf fuel (j+1)

/-- Forward scan from line `j` to the end of the buffer. -/
def scanFwd (buf : Buffer) (j : Nat) : Option Nat :=
  scanFwdAux buf (buf.length - j) j

/-- `findFenceInfo` from the source. -/
def findFenceInfo (buf : Buffer) (pos : Pos) : FenceInfo :=
  match scanBack buf pos.line with
  | none => noFence
  | some op =>
    match scanFwd buf (op + 1) with
    | none => noFence
    | some cl =>
      { inside := decide (op < pos.line) && decide (pos.line < cl)
        lang := extractFenceLang (getLine buf op)
        startLine := op
        endLine := cl }

/-! ## The document model: ranges and edits

The host editor exposes the buffer both line-wise (`getLine`) and as a
character document whose lines are joined by `'\n'`; `getRange` and
`replaceRange` address the document through (line, ch) positions. -/

/-- The document text of the buffer: lines joined by newline characters. -/
def docChars (buf : Buffer) : List Char :=
  match buf with
  | [] => []
  | [l] => l.data
  | l :: rest => l.data ++ '\n' :: docChars rest

/-- Character offset of the start of line `l` in the document. -/
def lineStartOffset (buf : Buffer) : Nat → Nat
  | 0 => 0
  | (l+1) =>
    match buf with
    | [] => 0
    | x :: rest => x.data.length + 1 + lineStartOffset rest l

/-- Character offset of a (line, ch) position. -/
def posToOffset (buf : Buffer) (p : Pos) : Nat :=
  lineStartOffset buf p.line + p.ch

/-- `editor.getRange(from, to)`: the document text between the two positions. -/
def getRange (buf : Buffer) (f t : Pos) : String :=
  String.mk (((docChars buf).drop (posToOffset buf f)).take (posToOffset buf t - posToOffset buf f))

/-- `editor.replaceRange(text, from, to)`: the resulting document text. -/
def replaceRange (buf : Buffer) (text : String) (f t : Pos) : List Char :=
  ((docChars buf).take (posToOffset buf f)) ++ text.data ++ ((docChars buf).drop (posToOffset buf t))

/-- `getBlockText`: text from the start of the line after `startLine` to the
start of line `endLine`. -/
def getBlockText (buf : Buffer) (info : FenceInfo) : String :=
  getRange buf ⟨(info.startLine + 1).toNat, 0⟩ ⟨info.endLine.toNat, 0⟩

/-- `replaceBlock`: overwrite the block span with `newCode`; the resulting document. -/
def replaceBlock (buf : Buffer) (info : FenceInfo) (newCode : String) : List Char :=
  replaceRange buf newCode ⟨(info.startLine + 1).toNat, 0⟩ ⟨info.endLine.toNat, 0⟩

/-- `mergePasteIntoBlock`, with the selection endpoints
(`editor.getCursor('from')/'to'`) passed in explicitly. -/
def mergePasteIntoBlock (buf : Buffer) (info : FenceInfo) (selFrom selTo : Pos) (pasted : String) : String :=
  let blockStart : Pos := ⟨(info.startLine + 1).toNat, 0⟩
  let blockEnd : Pos := ⟨info.endLine.toNat, 0⟩
  let safeFrom : Pos := if (selFrom.line : Int) ≤ info.startLine then blockStart else selFrom
  let safeTo : Pos := if (selTo.line : Int) ≥ info.endLine then blockEnd else selTo
  getRange buf blockStart safeFrom ++ pasted ++ getRange buf safeTo blockEnd

/-! ## The formatter invocation

`runFormatter` spawns a subprocess and resolves from its events; the process
outcome (spawn error, or exit code with collected stdout/stderr) is a
parameter of the model. -/

/-- Outcome of the spawned formatter process: an `error` event, or a `close`
event with the exit code and the collected stdout/stderr text. -/
inductive ProcResult where
  | spawnError (msg : String)
  | closed (code : Int) (stdout stderr : String)
deriving DecidableEq, Repr

/-- `runFormatter`: resolve with stdout (`out || input` — empty stdout falls
back to the input) on exit code 0; reject with stderr (or a generic message
naming the code when stderr is empty) on a non-zero code; reject with the
spawn error when the process could not be spawned. -/
def runFormatter (cmd : String) (args : List String) (input : String) (r : ProcResult) : Except String String :=
  match r with
  | .spawnError e => .error e
  | .closed code out err =>
    if code = 0 then
      .ok (if out = "" then input else out)
    else
      .error (if err = "" then "Formatter exited with code " ++ toString code else err)

/-! ## The paste handler

The `editor-paste` handler, modelled as a pure function of the debounce
state, the event context, and the formatter's behaviour on the text sent to
it.  Its result is the new debounce timestamp plus the observable outcome:
either the event falls through (default paste proceeds, `preventDefault`
not called), or it is intercepted and one edit is committed. -/

/-- Formatting scope from the settings. -/
inductive Scope where
  | block
  | snippet
deriving DecidableEq, Repr

/-- The single edit the handler commits after intercepting a paste. -/
inductive EditAction where
  | replaceSelectionWith (s : String)
  | replaceBlockWith (info : FenceInfo) (s : String)
deriving DecidableEq, Repr

/-- Observable outcome of one paste event. -/
inductive PasteOutcome where
  | fallthrough
  | intercepted (act : EditAction)
deriving DecidableEq, Repr

/-- Everything the handler reads from the event, the view and the settings. -/
structure PasteCtx where
  now : Nat
  enabled : Bool
  defaultPrevented : Bool
  isMarkdownView : Bool
  scope : Scope
  buf : Buffer
  cursor : Pos
  selFrom : Pos
  selTo : Pos
  clip : Option String

/-- The `editor-paste` handler body.  `lastPasteAt` is the debounce state on
entry; `fmt` is the behaviour of `formatText` (which engine runs is
irrelevant to the handler's control flow).  Returns the debounce state on
exit and the outcome. -/
def handlePaste (lastPasteAt : Nat) (c : PasteCtx) (fmt : String → Except String String) :
    Nat × PasteOutcome :=
  if c.now - lastPasteAt < 250 then (lastPasteAt, .fallthrough)
  else
    let st := c.now
    if ¬ c.enabled then (st, .fallthrough)
    else if c.defaultPrevented then (st, .fallthrough)
    else if ¬ c.isMarkdownView then (st, .fallthrough)
    else
      let info := findFenceInfo c.buf c.cursor
      if ¬ (info.inside && isPythonLang info.lang) then (st, .fallthrough)
      else
        match c.clip with
        | none => (st, .fallthrough)
        | some text =>
          if text = "" then (st, .fallthrough)
          else
            match c.scope with
            | .snippet =>
              match fmt text with
              | .ok f => (st, .intercepted (.replaceSelectionWith f))
              | .error _ => (st, .intercepted (.replaceSelectionWith text))
            | .block =>
              let merged := mergePasteIntoBlock c.buf info c.selFrom c.selTo text
              match fmt merged with
              | .ok f => (st, .intercepted (.replaceBlockWith info f))
              | .error _ => (st, .intercepted (.replaceSelectionWith text))

/-! ## Specification lemmas for the two scanning loops -/

/-- If the backward scan fails, no line at or before `i` starts with a fence. -/
theorem scanBack_eq_none {buf : Buffer} {i : Nat} (h : scanBack buf i = none) :
    ∀ k, k ≤ i → startsWithFence (getLine buf k) = false := by
  induction i with
  | zero =>
    intro k hk
    interval_cases k
    simp only [scanBack] at h
    by_cases hf : startsWithFence (getLine buf 0) <;> simp [hf] at h ⊢
  | succ i ih =>
    intro k hk
    simp only [scanBack] at h
    by_cases hf : startsWithFence (getLine buf (i+1))
    · simp [hf] at h
    · simp only [hf, if_false] at h
      rcases Nat.lt_or_ge k (i+1) with hlt | hge
      · exact ih h k (Nat.lt_succ_iff.mp hlt)
      · have : k = i + 1 := Nat.le_antisymm hk hge
        subst this
        exact Bool.eq_false_iff.mpr hf

/-- If the backward scan returns `o`, then `o` is the nearest fence line at or
before `i`: it starts with a fence and no later line up to `i` does. -/
theorem scanBack_eq_some {buf : Buffer} {i o : Nat} (h : scanBack buf i = some o) :
    o ≤ i ∧ startsWithFence (getLine buf o) = true ∧
      ∀ k, o < k → k ≤ i → startsWithFence (getLine buf k) = false := by
  induction i with
  | zero =>
    simp only [scanBack] at h
    by_cases hf : startsWithFence (getLine buf 0) <;> simp [hf] at h
    subst h
    exact ⟨Nat.le_refl 0, by simpa using hf, fun k hk hk' => absurd (Nat.lt_of_lt_of_le hk hk') (Nat.lt_irrefl 0)⟩
  | succ i ih =>
    simp only [scanBack] at h
    by_cases hf : startsWithFence (getLine buf (i+1))
    · simp only [hf, if_true, Option.some.injEq] at h
      subst h
      refine ⟨Nat.le_refl _, by simpa using hf, fun k hk hk' => absurd (Nat.lt_of_lt_of_le hk hk') (Nat.lt_irrefl _)⟩
    · simp only [hf, if_false] at h
      obtain ⟨h1, h2, h3⟩ := ih h
      refine ⟨Nat.le_succ_of_le h1, h2, fun k hk hk' => ?_⟩
      rcases Nat.lt_or_ge k (i+1) with hlt | hge
      · exact h3 k hk (Nat.lt_succ_iff.mp hlt)
      · have : k = i + 1 := Nat.le_antisymm hk' hge
        subst this
        exact Bool.eq_false_iff.mpr hf

/-- Conversely, the backward scan finds the nearest fence line. -/
theorem scanBack_of_found {buf : Buffer} {i o : Nat} (ho : o ≤ i)
    (hf : startsWithFence (getLine buf o) = true)
    (hnone : ∀ k, o < k → k ≤ i → startsWithFence (getLine buf k) = false) :
    scanBack buf i = some o := by
  induction i with
  | zero =>
    interval_cases o
    simp [scanBack, hf]
  | succ i ih =>
    rcases Nat.lt_or_ge o (i+1) with hlt | hge
    · have hne : startsWithFence (getLine buf (i+1)) = false :=
        hnone (i+1) hlt (Nat.le_refl _)
      simp only [scanBack, hne, Bool.false_eq_true, if_false]
      exact ih (Nat.lt_succ_iff.mp hlt) (fun k hk hk' => hnone k hk (Nat.le_succ_of_le hk'))
    · have : o = i + 1 := Nat.le_antisymm ho hge
      subst this
      simp [scanBack, hf]

/-- If the forward scan (with fuel) returns `c`, then `c` is the nearest fence
line at or after `j` within the fuel window. -/
theorem scanFwdAux_eq_some {buf : Buffer} {fuel j c : Nat}
    (h : scanFwdAux buf fuel j = some c) :
    j ≤ c ∧ c < j + fuel ∧ startsWithFence (getLine buf c) = true ∧
      ∀ k, j ≤ k → k < c → startsWithFence (getLine buf k) = false := by
  induction fuel generalizing j with
  | zero => simp [scanFwdAux] at h
  | succ fuel ih =>
    simp only [scanFwdAux] at h
    by_cases hf : startsWithFence (getLine buf j)
    · simp only [hf, if_true, Option.some.injEq] at h
      subst h
      exact ⟨Nat.le_refl _, Nat.lt_add_of_pos_right (Nat.succ_pos _), by simpa using hf,
        fun k hk hk' => absurd (Nat.lt_of_le_of_lt hk hk') (Nat.lt_irrefl _)⟩
    · simp only [hf, if_false] at h
      obtain ⟨h1, h2, h3, h4⟩ := ih h
      refine ⟨Nat.le_of_succ_le h1, by omega, h3, fun k hk hk' => ?_⟩
      rcases Nat.lt_or_ge k (j+1) with hlt | hge
      · have : k = j := by omega
        subst this
        exact Bool.eq_false_iff.mpr hf
      · exact h4 k hge hk'

/-- If the forward scan fails, no line in the fuel window starts with a fence. -/
theorem scanFwdAux_eq_none {buf : Buffer} {fuel j : Nat}
    (h : scanFwdAux buf fuel j = none) :
    ∀ k, j ≤ k → k < j + fuel → startsWithFence (getLine buf k) = false := by
  induction fuel generalizing j with
  | zero => intro k hk hk'; omega
  | succ fuel ih =>
    simp only [scanFwdAux] at h
    by_cases hf : startsWithFence (getLine buf j)
    · simp [hf] at h
    · simp only [hf, if_false] at h
      intro k hk hk'
      rcases Nat.lt_or_ge k (j+1) with hlt | hge
      · have : k = j := by omega
        subst this
        exact Bool.eq_false_iff.mpr hf
      · exact ih h k hge (by omega)

/-- Conversely, the forward scan finds the nearest fence line in its window. -/
theorem scanFwdAux_of_found {buf : Buffer} {fuel j c : Nat} (hjc : j ≤ c)
    (hc : c < j + fuel) (hf : startsWithFence (getLine buf c) = true)
    (hnone : ∀ k, j ≤ k → k < c → startsWithFence (getLine buf k) = false) :
    scanFwdAux buf fuel j = some c := by
  induction fuel generalizing j with
  | zero => omega
  | succ fuel ih =>
    rcases Nat.lt_or_ge j c with hlt | hge
    · have hne : startsWithFence (getLine buf j) = false := hnone j (Nat.le_refl _) hlt
      simp only [scanFwdAux, hne, Bool.false_eq_true, if_false]
      exact ih hlt (by omega) (fun k hk hk' => hnone k (Nat.le_of_succ_le hk) hk')
    · have : j = c := Nat.le_antisymm hjc hge
      subst this
      simp [scanFwdAux, hf]

/-- Forward-scan specification, with the fuel resolved to the buffer length. -/
theorem scanFwd_eq_some {buf : Buffer} {j c : Nat} (h : scanFwd buf j = some c) :
    j ≤ c ∧ c < buf.length ∧ startsWithFence (getLine buf c) = true ∧
      ∀ k, j ≤ k → k < c → startsWithFence (getLine buf k) = false := by
  obtain ⟨h1, h2, h3, h4⟩ := scanFwdAux_eq_some h
  exact ⟨h1, by omega, h3, h4⟩

/-- The forward scan finds the nearest fence line before the buffer end. -/
theorem scanFwd_of_found {buf : Buffer} {j c : Nat} (hjc : j ≤ c) (hc : c < buf.length)
    (hf : startsWithFence (getLine buf c) = true)
    (hnone : ∀ k, j ≤ k → k < c → startsWithFence (getLine buf k) = false) :
    scanFwd buf j = some c :=
  scanFwdAux_of_found hjc (by omega) hf hnone

/-- Inversion for `findFenceInfo`: either the absence-marker, or both scans
succeeded and the result is assembled from their hits. -/
theorem findFenceInfo_cases (buf : Buffer) (pos : Pos) :
    findFenceInfo buf pos = noFence ∨
    ∃ o c : Nat, scanBack buf pos.line = some o ∧ scanFwd buf (o + 1) = some c ∧
      findFenceInfo buf pos =
        ⟨decide (o < pos.line) && decide (pos.line < c), extractFenceLang (getLine buf o), o, c⟩ := by
  rcases hb : scanBack buf pos.line with _ | o
  · left
    simp only [findFenceInfo, hb]
  · rcases hfw : scanFwd buf (o + 1) with _ | c
    · left
      simp only [findFenceInfo, hb, hfw]
    · right
      exact ⟨o, c, rfl, hfw, by simp only [findFenceInfo, hb, hfw]⟩

/-- A tag extracted from a fence line is never the empty string. -/
theorem extractFenceLang_ne_empty {s t : String} (h : extractFenceLang s = some t) :
    t ≠ "" := by
  unfold extractFenceLang at h
  by_cases hp : [btick, btick, btick].isPrefixOf (jsTrim s).data
  · simp only [hp, if_true] at h
    set tag := ((jsTrim s).data.dropWhile (· = btick)).dropWhile isJsSpace
      |>.takeWhile (fun c => ¬ (isJsSpace c || c = btick || c = Char.ofNat 123)) with htag
    by_cases hz : tag = []
    · simp [hz] at h
    · simp only [hz, if_false] at h
      have ht : String.mk tag = t := by injection h
      intro he
      apply hz
      have := congrArg String.data (ht.trans he)
      simpa using this
  · simp [hp] at h

/-- `isPythonLang` holds exactly for a present tag whose ASCII lowercase form
is one of the four Python tokens. -/
theorem isPythonLang_iff (o : Option String) :
    isPythonLang o = true ↔
      ∃ tag, o = some tag ∧
        (jsToLower tag = "python" ∨ jsToLower tag = "py" ∨
         jsToLower tag = "python3" ∨ jsToLower tag = "py3") := by
  rcases o with _ | tag
  · simp [isPythonLang]
  · constructor
    · intro h
      by_cases hz : tag = ""
      · simp [isPythonLang, hz] at h
      · refine ⟨tag, rfl, ?_⟩
        simp only [isPythonLang, hz, if_false, Bool.or_eq_true, decide_eq_true_eq] at h
        tauto
    · rintro ⟨tag', heq, hmem⟩
      obtain rfl : tag = tag' := by injection heq
      have hz : tag ≠ "" := by
        intro hz
        subst hz
        rcases hmem with h | h | h | h <;> exact absurd h (by decide)
      simp only [isPythonLang, hz, if_false, Bool.or_eq_true, decide_eq_true_eq]
      tauto

/-! ## Offset arithmetic for the document model -/

/-- Line start offsets are monotone in the line index (single step). -/
theorem lineStartOffset_le_succ (buf : Buffer) (l : Nat) :
    lineStartOffset buf l ≤ lineStartOffset buf (l + 1) := by
  induction l generalizing buf with
  | zero =>
    simp [lineStartOffset]
  | succ l ih =>
    rcases buf with _ | ⟨x, rest⟩
    · simp [lineStartOffset]
    · simpa [lineStartOffset] using ih rest

/-- Line start offsets are monotone in the line index. -/
theorem lineStartOffset_mono (buf : Buffer) {l1 l2 : Nat} (h : l1 ≤ l2) :
    lineStartOffset buf l1 ≤ lineStartOffset buf l2 := by
  induction h with
  | refl => exact Nat.le_refl _
  | step h ih => exact Nat.le_trans ih (lineStartOffset_le_succ _ _)

/-- Splicing a sublist back where it was taken from is the identity. -/
theorem take_splice_drop {α : Type} (l : List α) {a b : Nat} (hab : a ≤ b) :
    l.take a ++ ((l.drop a).take (b - a)) ++ l.drop b = l := by
  have hb' : a + (b - a) = b := by omega
  have hmin : min a b = a := by omega
  have h1 : (l.drop a).take (b - a) = (l.take b).drop a := by
    rw [List.take_drop, hb']
  have h2 : l.take a = (l.take b).take a := by
    rw [List.take_take, hmin]
  rw [h1, h2, List.append_assoc, ← List.append_assoc ((l.take b).take a),
    List.take_append_drop, List.take_append_drop]

/-- An empty range: `getRange` over a degenerate span is the empty string. -/
theorem getRange_self (buf : Buffer) (p : Pos) : getRange buf p p = "" := by
  unfold getRange
  rw [Nat.sub_self]
  rfl

/-! ## Claim theorems -/

/-- C1 (counterexample): in a buffer with two closed fences, a cursor on the
line strictly between the first fence's closing delimiter (line 2) and the
second fence's opening delimiter (line 4) is reported as `inside = true`, not
as the absence-marker. -/
theorem claim1_counterexample :
    startsWithFence (getLine ["```python", "x", "```", "hello", "```python", "y", "```"] 0) = true ∧
    startsWithFence (getLine ["```python", "x", "```", "hello", "```python", "y", "```"] 2) = true ∧
    startsWithFence (getLine ["```python", "x", "```", "hello", "```python", "y", "```"] 4) = true ∧
    startsWithFence (getLine ["```python", "x", "```", "hello", "```python", "y", "```"] 6) = true ∧
    startsWithFence (getLine ["```python", "x", "```", "hello", "```python", "y", "```"] 3) = false ∧
    (findFenceInfo ["```python", "x", "```", "hello", "```python", "y", "```"] ⟨3, 0⟩).inside = true ∧
    findFenceInfo ["```python", "x", "```", "hello", "```python", "y", "```"] ⟨3, 0⟩ ≠ noFence := by
  decide

/-- C1 (amended): `findFenceInfo` returns the absence-marker whenever every
fence-delimiter line at or before the cursor's line is not followed by any
later fence-delimiter line in the buffer (in particular when no delimiter
precedes the cursor at all, or the candidate fence is unterminated).  A cursor
between two closed fences does not satisfy this and is instead paired with
the surrounding delimiters. -/
theorem claim1_main (buf : Buffer) (pos : Pos)
    (h : ∀ o, o ≤ pos.line → startsWithFence (getLine buf o) = true →
         ∀ k, o < k → k < buf.length → startsWithFence (getLine buf k) = false) :
    findFenceInfo buf pos = noFence := by
  rcases findFenceInfo_cases buf pos with hc | ⟨o, c, hb, hfw, heq⟩
  · exact hc
  · obtain ⟨ho1, ho2, -⟩ := scanBack_eq_some hb
    obtain ⟨hc1, hc2, hc3, -⟩ := scanFwd_eq_some hfw
    have hfalse := h o ho1 ho2 c (by omega) hc2
    rw [hc3] at hfalse
    cases hfalse

/-- C1 witness: a cursor inside an unterminated fence gets the absence-marker. -/
theorem claim1_witness :
    findFenceInfo ["```py", "x"] ⟨0, 0⟩ = noFence :=
  claim1_main ["```py", "x"] ⟨0, 0⟩ (by
    intro o ho hf k hk1 hk2
    have hlen : (["```py", "x"] : Buffer).length = 2 := rfl
    rw [hlen] at hk2
    have hk : k = 1 := by omega
    subst hk
    decide)

/-- C4 (counterexample): a line whose trimmed content begins with three
backticks but which carries leading whitespace is not recognized as an
opening delimiter: the scan ignores it and returns the absence-marker. -/
theorem claim4_counterexample :
    startsWithFence (jsTrim (getLine ["  ```python", "x", "```"] 0)) = true ∧
    startsWithFence (getLine ["  ```python", "x", "```"] 0) = false ∧
    findFenceInfo ["  ```python", "x", "```"] ⟨1, 0⟩ = noFence := by
  decide

/-- C4 (amended): whenever `findFenceInfo` selects an opening delimiter, it is
the nearest line at or before the cursor's line whose raw (untrimmed) content
begins with three backticks; lines with leading whitespace before the
backticks are not delimiters. -/
theorem claim4_main (buf : Buffer) (pos : Pos)
    (h : (findFenceInfo buf pos).startLine ≠ -1) :
    ∃ o : Nat, (findFenceInfo buf pos).startLine = (o : Int) ∧
      startsWithFence (getLine buf o) = true ∧ o ≤ pos.line ∧
      ∀ k, o < k → k ≤ pos.line → startsWithFence (getLine buf k) = false := by
  rcases findFenceInfo_cases buf pos with hc | ⟨o, c, hb, hfw, heq⟩
  · rw [hc] at h
    simp [noFence] at h
  · obtain ⟨h1, h2, h3⟩ := scanBack_eq_some hb
    exact ⟨o, by rw [heq], h2, h1, h3⟩

/-- C4 witness: in a buffer whose nearest preceding raw fence line is line 1,
the chosen opening delimiter is line 1. -/
theorem claim4_witness :
    (findFenceInfo ["x", "```py", "y", "```"] ⟨2, 0⟩).startLine ≠ -1 ∧
    ∃ o : Nat, (findFenceInfo ["x", "```py", "y", "```"] ⟨2, 0⟩).startLine = (o : Int) ∧
      startsWithFence (getLine ["x", "```py", "y", "```"] o) = true ∧ o ≤ 2 ∧
      ∀ k, o < k → k ≤ 2 → startsWithFence (getLine ["x", "```py", "y", "```"] k) = false :=
  ⟨by decide, claim4_main ["x", "```py", "y", "```"] ⟨2, 0⟩ (by decide)⟩

/-- C5: for a well-formed fence (delimiter lines `s` and `e`, no delimiter
line strictly between them) and a cursor on a content line, `findFenceInfo`
returns `inside = true` with the delimiter indices and the tag parsed from
the opening line; the tag is Python-eligible exactly when its lowercase form
is one of python/py/python3/py3. -/
theorem claim5_main (buf : Buffer) (pos : Pos) (s e : Nat)
    (hsp : s < pos.line) (hpe : pos.line < e) (hlen : e < buf.length)
    (hfs : startsWithFence (getLine buf s) = true)
    (hfe : startsWithFence (getLine buf e) = true)
    (hmid : ∀ k, s < k → k < e → startsWithFence (getLine buf k) = false) :
    findFenceInfo buf pos = ⟨true, extractFenceLang (getLine buf s), (s : Int), (e : Int)⟩ ∧
    (isPythonLang (findFenceInfo buf pos).lang = true ↔
      ∃ tag, extractFenceLang (getLine buf s) = some tag ∧
        (jsToLower tag = "python" ∨ jsToLower tag = "py" ∨
         jsToLower tag = "python3" ∨ jsToLower tag = "py3")) := by
  have hback : scanBack buf pos.line = some s :=
    scanBack_of_found (Nat.le_of_lt hsp) hfs
      (fun k hk hk' => hmid k hk (Nat.lt_of_le_of_lt hk' hpe))
  have hfwd : scanFwd buf (s + 1) = some e :=
    scanFwd_of_found (by omega) hlen hfe (fun k hk hk' => hmid k (by omega) hk')
  have heq : findFenceInfo buf pos =
      ⟨true, extractFenceLang (getLine buf s), (s : Int), (e : Int)⟩ := by
    simp only [findFenceInfo, hback, hfwd]
    simp [hsp, hpe]
  refine ⟨heq, ?_⟩
  rw [heq]
  exact isPythonLang_iff _

/-- C5 witness: a concrete well-formed fence tagged `Py3` (mixed case). -/
theorem claim5_witness :
    findFenceInfo ["```Py3", "x=1", "```"] ⟨1, 0⟩ = ⟨true, some "Py3", 0, 2⟩ ∧
    isPythonLang (findFenceInfo ["```Py3", "x=1", "```"] ⟨1, 0⟩).lang = true := by
  have h := claim5_main ["```Py3", "x=1", "```"] ⟨1, 0⟩ 0 2 (by decide) (by decide)
    (by decide) (by decide) (by decide)
    (fun k hk1 hk2 => by
      have hk : k = 1 := by omega
      subst hk
      decide)
  refine ⟨?_, ?_⟩
  · rw [h.1]
    decide
  · rw [h.1]
    decide

/-- C8 (counterexample): a cursor exactly on the opening delimiter line yields
`inside = false`, but `startLine`/`endLine` carry the found delimiter indices
(0 and 2), not `-1` as the claim states. -/
theorem claim8_counterexample :
    (findFenceInfo ["```python", "x", "```"] ⟨0, 0⟩).inside = false ∧
    (findFenceInfo ["```python", "x", "```"] ⟨0, 0⟩).startLine = 0 ∧
    (findFenceInfo ["```python", "x", "```"] ⟨0, 0⟩).endLine = 2 ∧
    ((0 : Int) = -1 → False) := by
  decide

/-- C8 (amended): `startLine < endLine` whenever `inside` is true;
`startLine = -1` and `endLine = -1` occur together (exactly when a scan
failed); and a cursor exactly on the opening or closing delimiter line yields
`inside = false` — but then the delimiter indices are still reported, so the
absence-marker is not returned in that case. -/
theorem claim8_main (buf : Buffer) (pos : Pos) :
    ((findFenceInfo buf pos).inside = true →
      (findFenceInfo buf pos).startLine < (findFenceInfo buf pos).endLine) ∧
    ((findFenceInfo buf pos).startLine = -1 ↔ (findFenceInfo buf pos).endLine = -1) ∧
    (((pos.line : Int) = (findFenceInfo buf pos).startLine ∨
      (pos.line : Int) = (findFenceInfo buf pos).endLine) →
      (findFenceInfo buf pos).inside = false) := by
  rcases findFenceInfo_cases buf pos with hc | ⟨o, c, hb, hfw, heq⟩
  · rw [hc]
    simp [noFence]
  · obtain ⟨hc1, -, -, -⟩ := scanFwd_eq_some hfw
    rw [heq]
    dsimp only
    refine ⟨?_, ?_, ?_⟩
    · intro _
      exact_mod_cast (show o < c by omega)
    · constructor <;> intro h <;> omega
    · rintro (h | h)
      · have hpo : pos.line = o := by exact_mod_cast h
        simp [hpo]
      · have hpc : pos.line = c := by exact_mod_cast h
        simp [hpc]

/-- C8 witness: the inside case of a concrete fence has `startLine < endLine`,
and a cursor on the opening delimiter line is reported `inside = false`. -/
theorem claim8_witness :
    ((findFenceInfo ["```python", "x", "```"] ⟨1, 0⟩).inside = true ∧
     (findFenceInfo ["```python", "x", "```"] ⟨1, 0⟩).startLine <
       (findFenceInfo ["```python", "x", "```"] ⟨1, 0⟩).endLine) ∧
    (findFenceInfo ["```python", "x", "```"] ⟨0, 0⟩).inside = false :=
  ⟨⟨by decide, (claim8_main ["```python", "x", "```"] ⟨1, 0⟩).1 (by decide)⟩,
   (claim8_main ["```python", "x", "```"] ⟨0, 0⟩).2.2 (Or.inl (by decide))⟩

/-- C2 (counterexample): with a selection whose endpoints both lie on lines
before `startLine + 1` (both on line 0, above the fence opening at line 1),
the merge result is not the pasted text followed by the block content — it
contains the text `ove` from outside the block and the full opening
delimiter line. -/
theorem claim2_counterexample :
    mergePasteIntoBlock ["above", "```python", "code", "```"] ⟨true, some "python", 1, 3⟩
      ⟨0, 0⟩ ⟨0, 2⟩ "P" = "Pove\n```python\ncode\n" ∧
    mergePasteIntoBlock ["above", "```python", "code", "```"] ⟨true, some "python", 1, 3⟩
      ⟨0, 0⟩ ⟨0, 2⟩ "P" ≠
      "P" ++ getBlockText ["above", "```python", "code", "```"] ⟨true, some "python", 1, 3⟩ := by
  decide

/-- C2 (amended): with the selection start at or before the opening delimiter
line, the start is clamped to the block start; if the selection end is the
block-start position the merge equals the pasted text followed by the full
block content, but if the selection end also lies at or before the opening
delimiter line, the merge is the pasted text followed by the document text
from the unclamped selection end to the block end — a span that includes the
opening delimiter line. -/
theorem claim2_main (buf : Buffer) (lang : Option String) (s e : Nat)
    (selFrom selTo : Pos) (pasted : String) (hse : s < e)
    (hfrom : (selFrom.line : Int) ≤ (s : Int)) :
    (selTo = ⟨s + 1, 0⟩ →
      mergePasteIntoBlock buf ⟨true, lang, (s : Int), (e : Int)⟩ selFrom selTo pasted =
        pasted ++ getBlockText buf ⟨true, lang, (s : Int), (e : Int)⟩) ∧
    ((selTo.line : Int) ≤ (s : Int) →
      mergePasteIntoBlock buf ⟨true, lang, (s : Int), (e : Int)⟩ selFrom selTo pasted =
        pasted ++ getRange buf selTo ⟨e, 0⟩) := by
  constructor
  · intro hto
    subst hto
    unfold mergePasteIntoBlock
    dsimp only
    rw [if_pos hfrom]
    by_cases he : ((s + 1 : Nat) : Int) ≥ (e : Int)
    · have he' : e = s + 1 := by omega
      subst he'
      rw [if_pos he, getRange_self]
      rfl
    · rw [if_neg he, getRange_self]
      rfl
  · intro hto
    unfold mergePasteIntoBlock
    dsimp only
    rw [if_pos hfrom, if_neg (show ¬ ((selTo.line : Int) ≥ (e : Int)) by omega), getRange_self]
    rfl

/-- C2 witness: for the fence of `claim2_counterexample`, a selection ending
exactly at the block start merges to paste-then-block, and a selection
entirely above the block merges to paste followed by the out-of-block span. -/
theorem claim2_witness :
    mergePasteIntoBlock ["above", "```python", "code", "```"] ⟨true, some "python", 1, 3⟩
      ⟨0, 0⟩ ⟨2, 0⟩ "P" =
      "P" ++ getBlockText ["above", "```python", "code", "```"] ⟨true, some "python", 1, 3⟩ ∧
    mergePasteIntoBlock ["above", "```python", "code", "```"] ⟨true, some "python", 1, 3⟩
      ⟨0, 0⟩ ⟨0, 2⟩ "P" =
      "P" ++ getRange ["above", "```python", "code", "```"] ⟨0, 2⟩ ⟨3, 0⟩ :=
  ⟨(claim2_main ["above", "```python", "code", "```"] (some "python") 1 3
      ⟨0, 0⟩ ⟨2, 0⟩ "P" (by decide) (by decide)).1 rfl,
   (claim2_main ["above", "```python", "code", "```"] (some "python") 1 3
      ⟨0, 0⟩ ⟨0, 2⟩ "P" (by decide) (by decide)).2 (by decide)⟩

/-- C9: extracting the block text and replacing the block with that same text
leaves the document unchanged. -/
theorem claim9_main (buf : Buffer) (lang : Option String) (s e : Nat) (hse : s < e) :
    replaceBlock buf ⟨true, lang, (s : Int), (e : Int)⟩
      (getBlockText buf ⟨true, lang, (s : Int), (e : Int)⟩) = docChars buf := by
  have hab : posToOffset buf ⟨s + 1, 0⟩ ≤ posToOffset buf ⟨e, 0⟩ := by
    simp only [posToOffset, Nat.add_zero]
    exact lineStartOffset_mono buf (by omega)
  show (docChars buf).take (posToOffset buf ⟨s + 1, 0⟩) ++
      ((docChars buf).drop (posToOffset buf ⟨s + 1, 0⟩)).take
        (posToOffset buf ⟨e, 0⟩ - posToOffset buf ⟨s + 1, 0⟩) ++
      (docChars buf).drop (posToOffset buf ⟨e, 0⟩) = docChars buf
  exact take_splice_drop (docChars buf) hab

/-- C9 witness: a concrete fence; extract-then-replace is the identity. -/
theorem claim9_witness :
    (0 : Nat) < 3 ∧
    replaceBlock ["```py", "a", "b", "```"] ⟨true, some "py", 0, 3⟩
      (getBlockText ["```py", "a", "b", "```"] ⟨true, some "py", 0, 3⟩) =
      docChars ["```py", "a", "b", "```"] :=
  ⟨by decide, claim9_main ["```py", "a", "b", "```"] (some "py") 0 3 (by decide)⟩

/-- C6: `runFormatter` resolves with stdout verbatim on exit 0 with non-empty
output, with the original input on exit 0 with empty output, and rejects on a
non-zero exit with the stderr text, or with a generic message naming the exit
code when stderr is empty. -/
theorem claim6_main (cmd : String) (args : List String) (input out err : String) (code : Int) :
    (code = 0 → out ≠ "" → runFormatter cmd args input (.closed code out err) = .ok out) ∧
    (code = 0 → runFormatter cmd args input (.closed code "" err) = .ok input) ∧
    (code ≠ 0 → err ≠ "" → runFormatter cmd args input (.closed code out err) = .error err) ∧
    (code ≠ 0 → runFormatter cmd args input (.closed code out "") =
      .error ("Formatter exited with code " ++ toString code)) := by
  refine ⟨fun h1 h2 => ?_, fun h1 => ?_, fun h1 h2 => ?_, fun h1 => ?_⟩
  · simp [runFormatter, h1, h2]
  · simp [runFormatter, h1]
  · simp [runFormatter, h1, h2]
  · simp [runFormatter, h1]

/-- C6 witness: the four formatter outcomes at concrete process results. -/
theorem claim6_witness :
    runFormatter "ruff" ["format"] "inp" (.closed 0 "out" "err") = .ok "out" ∧
    runFormatter "ruff" ["format"] "inp" (.closed 0 "" "err") = .ok "inp" ∧
    runFormatter "ruff" ["format"] "inp" (.closed 2 "out" "boom") = .error "boom" ∧
    runFormatter "ruff" ["format"] "inp" (.closed 2 "out" "") =
      .error ("Formatter exited with code " ++ toString (2 : Int)) :=
  ⟨(claim6_main "ruff" ["format"] "inp" "out" "err" 0).1 rfl (by decide),
   (claim6_main "ruff" ["format"] "inp" "out" "err" 0).2.1 rfl,
   (claim6_main "ruff" ["format"] "inp" "out" "boom" 2).2.2.1 (by decide) (by decide),
   (claim6_main "ruff" ["format"] "inp" "out" "err" 2).2.2.2 (by decide)⟩

/-- C3 (counterexample): a paste at t=1000 that is ineligible (no fence under
the cursor) is suppressed, yet resets the debounce timestamp to 1000; a fully
eligible paste at t=1100 is then debounced and falls through — although the
same eligible paste is processed when the ineligible one had not counted. -/
theorem claim3_counterexample :
    handlePaste 0 ⟨1000, true, false, true, .block, ["hello"], ⟨0, 0⟩, ⟨0, 0⟩, ⟨0, 0⟩, some "x"⟩
      (fun _ => Except.error "e") = (1000, .fallthrough) ∧
    (handlePaste 1000 ⟨1100, true, false, true, .block, ["```py", "a", "```"], ⟨1, 0⟩, ⟨1, 0⟩,
      ⟨1, 0⟩, some "x"⟩ (fun _ => Except.error "e")).2 = .fallthrough ∧
    (handlePaste 0 ⟨1100, true, false, true, .block, ["```py", "a", "```"], ⟨1, 0⟩, ⟨1, 0⟩,
      ⟨1, 0⟩, some "x"⟩ (fun _ => Except.error "e")).2 =
      .intercepted (.replaceSelectionWith "x") := by
  decide

/-- C3 (amended): the debounce timestamp is left unchanged (and the event
falls through) when the event arrives within 250 ms of the stored timestamp;
otherwise the timestamp is reset to the event time on every such paste event
— eligible or not — so a paste suppressed for ineligibility still counts for
debouncing later pastes. -/
theorem claim3_main (st : Nat) (c : PasteCtx) (fmt : String → Except String String) :
    (c.now - st < 250 → handlePaste st c fmt = (st, .fallthrough)) ∧
    (¬ c.now - st < 250 → (handlePaste st c fmt).1 = c.now) := by
  constructor
  · intro h
    unfold handlePaste
    rw [if_pos h]
  · intro h
    unfold handlePaste
    rw [if_neg h]
    dsimp only
    repeat' split <;> try rfl

/-- C3 witness: a debounced paste keeps the timestamp; a later one resets it. -/
theorem claim3_witness :
    handlePaste 900 ⟨1000, true, false, true, .block, ["```py", "a", "```"], ⟨1, 0⟩, ⟨1, 0⟩,
      ⟨1, 0⟩, some "x"⟩ (fun _ => Except.error "e") = (900, .fallthrough) ∧
    (handlePaste 0 ⟨1000, true, false, true, .block, ["```py", "a", "```"], ⟨1, 0⟩, ⟨1, 0⟩,
      ⟨1, 0⟩, some "x"⟩ (fun _ => Except.error "e")).1 = 1000 :=
  ⟨(claim3_main 900 ⟨1000, true, false, true, .block, ["```py", "a", "```"], ⟨1, 0⟩, ⟨1, 0⟩,
      ⟨1, 0⟩, some "x"⟩ (fun _ => Except.error "e")).1 (by decide),
   (claim3_main 0 ⟨1000, true, false, true, .block, ["```py", "a", "```"], ⟨1, 0⟩, ⟨1, 0⟩,
      ⟨1, 0⟩, some "x"⟩ (fun _ => Except.error "e")).2 (by decide)⟩

/-- C7: in block mode, when the handler intercepts an eligible paste and the
formatter invocation on the merged block fails, the committed edit is the
insertion of the original pasted text at the selection — never a block
replacement. -/
theorem claim7_main (st : Nat) (c : PasteCtx) (fmt : String → Except String String)
    (text errMsg : String)
    (hdeb : ¬ c.now - st < 250)
    (hen : c.enabled = true)
    (hdp : c.defaultPrevented = false)
    (hmd : c.isMarkdownView = true)
    (hin : (findFenceInfo c.buf c.cursor).inside = true)
    (hpy : isPythonLang (findFenceInfo c.buf c.cursor).lang = true)
    (hclip : c.clip = some text)
    (hne : text ≠ "")
    (hscope : c.scope = Scope.block)
    (hfmt : fmt (mergePasteIntoBlock c.buf (findFenceInfo c.buf c.cursor) c.selFrom c.selTo text) =
      .error errMsg) :
    handlePaste st c fmt = (c.now, .intercepted (.replaceSelectionWith text)) := by
  unfold handlePaste
  rw [if_neg hdeb]
  simp only [hen, hdp, hmd, hin, hpy, hclip, hscope, Bool.not_true, Bool.true_and,
    Bool.false_eq_true, if_false, if_neg hne]
  rw [hfmt]
  simp

/-- C7 witness: a concrete eligible block-mode paste with a failing formatter
commits the raw pasted text at the selection. -/
theorem claim7_witness :
    handlePaste 0 ⟨1000, true, false, true, .block, ["```py", "a", "```"], ⟨1, 0⟩, ⟨1, 0⟩,
      ⟨1, 0⟩, some "x"⟩ (fun _ => Except.error "boom") =
      (1000, .intercepted (.replaceSelectionWith "x")) :=
  claim7_main 0 ⟨1000, true, false, true, .block, ["```py", "a", "```"], ⟨1, 0⟩, ⟨1, 0⟩,
      ⟨1, 0⟩, some "x"⟩ (fun _ => Except.error "boom") "x" "boom"
    (by decide) rfl rfl rfl (by decide) (by decide) rfl (by decide) rfl rfl

/-- With no clipboard payload, or an empty-string payload, every path of the
handler falls through with the timestamp updated only by the debounce rule. -/
theorem handlePaste_noclip (st : Nat) (c : PasteCtx) (fmt : String → Except String String)
    (h : c.clip = none ∨ c.clip = some "") :
    handlePaste st c fmt = (if c.now - st < 250 then st else c.now, .fallthrough) := by
  by_cases h1 : c.now - st < 250
  · rcases h with h | h <;> simp [handlePaste, h1, h]
  · rcases h with h | h <;> simp [handlePaste, h1, h]

/-- C10: a paste event whose plain-text payload is present but empty is
handled exactly as one with no payload at all: the handler's result (debounce
state and outcome) is identical, and the outcome is always a fallthrough to
the default paste, with no interception. -/
theorem claim10_main (st : Nat) (c : PasteCtx) (fmt : String → Except String String) :
    handlePaste st { c with clip := some "" } fmt = handlePaste st { c with clip := none } fmt ∧
    (handlePaste st { c with clip := some "" } fmt).2 = .fallthrough := by
  rw [handlePaste_noclip st { c with clip := some "" } fmt (Or.inr rfl),
    handlePaste_noclip st { c with clip := none } fmt (Or.inl rfl)]
  exact ⟨rfl, rfl⟩

end PPF
